import Mathlib

/-!
Verification of the training script `train.py` of the fixup-Initialization
repository (a WideResNet CIFAR training loop).

Real-valued quantities of the script (learning rates, losses, accuracies)
are modelled as rationals (`ℚ`); Python operations that can raise
(division by zero, loading a missing file) are modelled with `Option` /
`Except`.
-/

/-! ## Learning-rate schedule (`adjust_learning_rate`, train.py lines 277-285)

The optimizer's parameter groups are modelled as records carrying the
mutable field the function writes (`lr`) plus a tag standing for all the
other per-group contents, which the function leaves untouched. -/

/-- One entry of `optimizer.param_groups`: the `lr` field written by
`adjust_learning_rate` and a tag for the rest of the group's contents. -/
structure ParamGroup where
  tag : ℕ
  lr : ℚ
  deriving DecidableEq, Repr

/-- `lr = args.lr * ((0.2 ** int(epoch >= 60)) * (0.2 ** int(epoch >= 120)) * (0.2 ** int(epoch >= 160)))`
(train.py line 279).  `epoch` is the 1-indexed epoch number: `main` calls
`adjust_learning_rate(optimizer, epoch+1)` on the 0-indexed loop variable. -/
def lrValue (base_lr : ℚ) (epoch : ℕ) : ℚ :=
  base_lr * (((0.2 : ℚ) ^ (if 60 ≤ epoch then 1 else 0)) *
    ((0.2 : ℚ) ^ (if 120 ≤ epoch then 1 else 0)) *
    ((0.2 : ℚ) ^ (if 160 ≤ epoch then 1 else 0)))

/-- `adjust_learning_rate` (train.py lines 277-285): computes `lr` from the
base learning rate and the 1-indexed epoch, then writes it into every
parameter group of the optimizer. -/
def adjust_learning_rate (base_lr : ℚ) (groups : List ParamGroup) (epoch : ℕ) :
    List ParamGroup :=
  let lr := lrValue base_lr epoch
  groups.map fun g => { g with lr := lr }

/-! ## `AverageMeter` (train.py lines 73-88)

`update` recomputes `avg = sum / count`; in Python this raises
`ZeroDivisionError` when the new count is zero, so `update` returns
`Option`. -/

/-- The four fields of `AverageMeter` (train.py lines 78-82). -/
structure AverageMeter where
  val : ℚ
  avg : ℚ
  sum : ℚ
  count : ℚ
  deriving DecidableEq, Repr

/-- `reset` (train.py lines 78-82) zeroes all four fields; `__init__` just
calls it, so this is also the state of a fresh meter. -/
def AverageMeter.reset : AverageMeter :=
  { val := 0, avg := 0, sum := 0, count := 0 }

/-- `update(val, n=1)` (train.py lines 84-88): sets `val`, adds `val*n` to
`sum`, adds `n` to `count`, recomputes `avg = sum / count`.  The division
raises `ZeroDivisionError` in Python exactly when the new count is zero,
modelled by `none`. -/
def AverageMeter.update (m : AverageMeter) (val : ℚ) (n : ℚ := 1) :
    Option AverageMeter :=
  if m.count + n = 0 then none
  else some { val := val, avg := (m.sum + val * n) / (m.count + n),
              sum := m.sum + val * n, count := m.count + n }

/-- Runs a sequence of `update` calls; `none` as soon as one raises. -/
def runUpdates (m : AverageMeter) : List (ℚ × ℚ) → Option AverageMeter
  | [] => some m
  | u :: us =>
    match m.update u.1 u.2 with
    | none => none
    | some m2 => runUpdates m2 us

/-- `Σ vi * wi` over a list of `update` arguments. -/
def weightedSum (upds : List (ℚ × ℚ)) : ℚ :=
  (upds.map fun u => u.1 * u.2).sum

/-- `Σ wi` over a list of `update` arguments. -/
def totalWeight (upds : List (ℚ × ℚ)) : ℚ :=
  (upds.map Prod.snd).sum

theorem weightedSum_cons (u : ℚ × ℚ) (us : List (ℚ × ℚ)) :
    weightedSum (u :: us) = u.1 * u.2 + weightedSum us := by
  simp [weightedSum]

theorem totalWeight_cons (u : ℚ × ℚ) (us : List (ℚ × ℚ)) :
    totalWeight (u :: us) = u.2 + totalWeight us := by
  simp [totalWeight]

/-- Bookkeeping invariant of a successful run of `update` calls: `sum` and
`count` advance by the weighted sum and the total weight, `val` is the last
value, `avg` is `sum / count`, and the final `count` is nonzero. -/
theorem runUpdates_fields (upds : List (ℚ × ℚ)) :
    ∀ m0 m : AverageMeter, runUpdates m0 upds = some m →
      m.sum = m0.sum + weightedSum upds ∧
      m.count = m0.count + totalWeight upds ∧
      (upds = [] → m = m0) ∧
      (∀ u, upds.getLast? = some u → m.val = u.1 ∧ m.avg = m.sum / m.count ∧ m.count ≠ 0) := by
  induction upds with
  | nil =>
    intro m0 m h
    simp [runUpdates] at h
    simp [h, weightedSum, totalWeight]
  | cons u us ih =>
    intro m0 m h
    simp only [runUpdates] at h
    rcases hu : m0.update u.1 u.2 with _ | m1
    · rw [hu] at h; exact absurd h (by simp)
    rw [hu] at h
    simp only [AverageMeter.update] at hu
    by_cases hc : m0.count + u.2 = 0
    · simp [hc] at hu
    simp only [hc, if_false, Option.some.injEq] at hu
    obtain ⟨hs, hcnt, -, hlast⟩ := ih m1 m h
    have h1sum : m1.sum = m0.sum + u.1 * u.2 := by rw [← hu]
    have h1cnt : m1.count = m0.count + u.2 := by rw [← hu]
    refine ⟨?_, ?_, by simp, ?_⟩
    · rw [hs, h1sum, weightedSum_cons]; ring
    · rw [hcnt, h1cnt, totalWeight_cons]; ring
    · intro v hv
      cases us with
      | nil =>
        have hm : m = m1 := by
          have := h; simp [runUpdates] at this; exact this.symm
        have hvu : v = u := by
          simp [List.getLast?] at hv; exact hv.symm
        subst hvu
        refine ⟨by rw [hm, ← hu], ?_, ?_⟩
        · rw [hm, ← hu]
        · rw [hm, h1cnt]; exact hc
      | cons a l =>
        have hstep : (u :: a :: l).getLast? = (a :: l).getLast? := by
          simp [List.getLast?_cons_cons]
        rw [hstep] at hv
        exact hlast v hv

/-- The factor `(0.2^[e≥60])*(0.2^[e≥120])*(0.2^[e≥160])` collapses to the
four-case piecewise multiplier. -/
theorem lrValue_eq (base_lr : ℚ) (e : ℕ) :
    lrValue base_lr e = base_lr *
      (if e < 60 then 1 else if e < 120 then 0.2 else if e < 160 then 0.04 else 0.008) := by
  unfold lrValue
  rcases lt_or_ge e 60 with h60 | h60
  · have h120 : e < 120 := by omega
    have h160 : e < 160 := by omega
    rw [if_neg (by omega), if_neg (by omega), if_neg (by omega),
      if_pos h60]
    norm_num
  · rcases lt_or_ge e 120 with h120 | h120
    · rw [if_pos (by omega), if_neg (by omega), if_neg (by omega),
        if_neg (by omega), if_pos h120]
      norm_num
    · rcases lt_or_ge e 160 with h160 | h160
      · rw [if_pos (by omega), if_pos (by omega), if_neg (by omega),
          if_neg (by omega), if_neg (by omega), if_pos h160]
        norm_num
      · rw [if_pos (by omega), if_pos (by omega), if_pos (by omega),
          if_neg (by omega), if_neg (by omega), if_neg (by omega)]
        norm_num

/-- C1: for every 1-indexed epoch number `e`, `adjust_learning_rate` sets the
learning rate of every optimizer parameter group to the base learning rate
times a multiplier that is `1.0` for `e < 60`, `0.2` for `60 ≤ e < 120`,
`0.04` for `120 ≤ e < 160` and `0.008` for `e ≥ 160`, leaving the rest of
each group unchanged. -/
theorem adjust_learning_rate_spec (base_lr : ℚ) (groups : List ParamGroup) (e : ℕ) :
    (adjust_learning_rate base_lr groups e).map ParamGroup.lr =
      groups.map (fun _ => base_lr *
        (if e < 60 then 1 else if e < 120 then 0.2 else if e < 160 then 0.04 else 0.008)) ∧
    (adjust_learning_rate base_lr groups e).map ParamGroup.tag =
      groups.map ParamGroup.tag := by
  constructor
  · simp only [adjust_learning_rate, List.map_map]
    rw [← lrValue_eq]
    rfl
  · simp [adjust_learning_rate, List.map_map]

/-- C2: after `update(v1,w1), ..., update(vn,wn)` (n ≥ 1, all succeeding) on a
freshly reset `AverageMeter`, `avg = (Σ vi*wi) / (Σ wi)`, `val = vn`,
`sum = Σ vi*wi` and `count = Σ wi`. -/
theorem averageMeter_run_spec (upds : List (ℚ × ℚ)) (m : AverageMeter) (v w : ℚ)
    (hlast : upds.getLast? = some (v, w))
    (hrun : runUpdates AverageMeter.reset upds = some m) :
    m.avg = weightedSum upds / totalWeight upds ∧
    m.val = v ∧
    m.sum = weightedSum upds ∧
    m.count = totalWeight upds := by
  obtain ⟨hs, hc, -, hlv⟩ := runUpdates_fields upds _ m hrun
  obtain ⟨hval, havg, -⟩ := hlv (v, w) hlast
  simp only [AverageMeter.reset, zero_add] at hs hc
  exact ⟨by rw [havg, hs, hc], hval, hs, hc⟩

theorem averageMeter_run_spec_witness :
    ({ val := 5, avg := 4, sum := 8, count := 2 } : AverageMeter).avg =
        weightedSum [(3, 1), (5, 1)] / totalWeight [(3, 1), (5, 1)] ∧
      ({ val := 5, avg := 4, sum := 8, count := 2 } : AverageMeter).val = 5 ∧
      ({ val := 5, avg := 4, sum := 8, count := 2 } : AverageMeter).sum =
        weightedSum [(3, 1), (5, 1)] ∧
      ({ val := 5, avg := 4, sum := 8, count := 2 } : AverageMeter).count =
        totalWeight [(3, 1), (5, 1)] :=
  averageMeter_run_spec [(3, 1), (5, 1)] _ 5 1 (by rfl)
    (by norm_num [runUpdates, AverageMeter.update, AverageMeter.reset])

/-- As long as every intermediate count is nonzero, no `update` raises. -/
theorem runUpdates_isSome (upds : List (ℚ × ℚ)) :
    ∀ m0 : AverageMeter,
      (∀ k, k < upds.length → m0.count + totalWeight (upds.take (k + 1)) ≠ 0) →
      (runUpdates m0 upds).isSome = true := by
  induction upds with
  | nil => intro m0 _; simp [runUpdates]
  | cons u us ih =>
    intro m0 hk
    have h0 : m0.count + u.2 ≠ 0 := by
      have := hk 0 (by simp)
      simpa [totalWeight] using this
    simp only [runUpdates, AverageMeter.update, if_neg h0]
    apply ih
    intro k hku
    have hk2 := hk (k + 1) (by simpa using Nat.succ_lt_succ hku)
    simp only [List.take_succ_cons, totalWeight_cons] at hk2
    intro hcontra
    apply hk2
    rw [← hcontra]
    ring

/-- C10: `update` with weight `n = 0` on a freshly reset meter raises a
division-by-zero error (modelled as `none`); more generally any nonempty call
sequence whose weights sum to `0` raises, and a sequence all of whose
cumulative weights stay positive is safe. -/
theorem averageMeter_zero_weight_raises (v : ℚ) (upds : List (ℚ × ℚ))
    (hne : upds ≠ []) :
    AverageMeter.reset.update v 0 = none ∧
    (totalWeight upds = 0 → runUpdates AverageMeter.reset upds = none) ∧
    ((∀ k, k < upds.length → 0 < totalWeight (upds.take (k + 1))) →
      (runUpdates AverageMeter.reset upds).isSome = true) := by
  refine ⟨by norm_num [AverageMeter.update, AverageMeter.reset], ?_, ?_⟩
  · intro hw
    rcases hres : runUpdates AverageMeter.reset upds with _ | m
    · rfl
    obtain ⟨-, hc, -, hlv⟩ := runUpdates_fields upds _ m hres
    rcases hul : upds.getLast? with _ | u
    · rw [List.getLast?_eq_none_iff] at hul
      exact absurd hul hne
    obtain ⟨-, -, hcnz⟩ := hlv u hul
    simp only [AverageMeter.reset, zero_add] at hc
    exact absurd (hc.trans hw) hcnz
  · intro hpos
    apply runUpdates_isSome
    intro k hku
    have := hpos k hku
    simp only [AverageMeter.reset, zero_add]
    exact ne_of_gt this

theorem averageMeter_zero_weight_raises_witness :
    AverageMeter.reset.update 5 0 = none ∧
    (totalWeight [((5 : ℚ), (0 : ℚ))] = 0 →
      runUpdates AverageMeter.reset [(5, 0)] = none) ∧
    ((∀ k, k < List.length [((5 : ℚ), (0 : ℚ))] →
        0 < totalWeight (List.take (k + 1) [((5 : ℚ), (0 : ℚ))])) →
      (runUpdates AverageMeter.reset [(5, 0)]).isSome = true) :=
  averageMeter_zero_weight_raises 5 [(5, 0)] (by simp)

/-! ## Top-k accuracy (`accuracy`, train.py lines 288-302)

`output.topk(maxk, 1, True, True)` returns, per sample row, the indices of
the `maxk` highest scores in descending order (stable selection: among equal
scores the lower index ranks first).  `correct[:k]` then tests whether the
true label occurs among the first `k` of them, which for `k ≤ maxk` is
exactly membership among the `k` highest-scoring classes.  We model that
membership directly: label `l` is in the top `k` of `row` iff fewer than `k`
indices rank strictly before it. -/

/-- Index `j` ranks before index `l` in the descending, stable ordering used
by `topk`: a strictly higher score, or an equal score at a lower index. -/
def ranksBefore (row : List ℚ) (j l : ℕ) : Bool :=
  decide (row.getD l 0 < row.getD j 0) ||
    (decide (row.getD j 0 = row.getD l 0) && decide (j < l))

/-- Label `l` is among the `k` highest-scoring classes of `row`. -/
def inTopK (k : ℕ) (row : List ℚ) (l : ℕ) : Bool :=
  decide (l < row.length) &&
    decide (((List.range row.length).filter fun j => ranksBefore row j l).length < k)

/-- `accuracy(output, target, topk)` (train.py lines 288-302): for each `k`,
the number of samples whose true label is among the `k` highest-scoring
classes, times `100.0 / batch_size`. -/
def accuracy (output : List (List ℚ)) (target : List ℕ) (topk : List ℕ) :
    List ℚ :=
  let batch_size := target.length
  topk.map fun k =>
    (((output.zip target).filter fun p => inTopK k p.1 p.2).length : ℚ) *
      (100 / (batch_size : ℚ))

/-- A label that is the strict argmax of its row is in the top 1. -/
theorem inTopK_one_of_argmax (row : List ℚ) (l : ℕ) (hl : l < row.length)
    (hmax : ∀ j < row.length, j ≠ l → row.getD j 0 < row.getD l 0) :
    inTopK 1 row l = true := by
  unfold inTopK
  simp only [Bool.and_eq_true, decide_eq_true_eq]
  refine ⟨hl, ?_⟩
  have hfilter : (List.range row.length).filter (fun j => ranksBefore row j l) = [] := by
    rw [List.filter_eq_nil_iff]
    intro j hj
    rw [List.mem_range] at hj
    unfold ranksBefore
    by_cases hje : j = l
    · subst hje; simp
    · have hlt := hmax j hj hje
      simp only [Bool.or_eq_true, Bool.and_eq_true, decide_eq_true_eq, not_or, not_and]
      exact ⟨not_lt.2 (le_of_lt hlt), fun he => absurd he (ne_of_lt hlt)⟩
  rw [hfilter]
  simp

/-- C5: `accuracy` returns, for each requested `k`, `100/batch_size` times
the number of samples whose true label is among the `k` highest-scoring
classes; in particular `[100]` when every sample's strict argmax equals its
label, and `[0]` when no sample's label is in its top `k`. -/
theorem accuracy_spec (output : List (List ℚ)) (target : List ℕ) (k : ℕ)
    (hlen : output.length = target.length) (hne : target ≠ []) :
    accuracy output target [k] =
      [(((output.zip target).filter fun p => inTopK k p.1 p.2).length : ℚ) * 100 /
        (target.length : ℚ)] ∧
    ((∀ p ∈ output.zip target, p.2 < p.1.length ∧
        ∀ j < p.1.length, j ≠ p.2 → p.1.getD j 0 < p.1.getD p.2 0) →
      accuracy output target [1] = [100]) ∧
    ((∀ p ∈ output.zip target, inTopK k p.1 p.2 = false) →
      accuracy output target [k] = [0]) := by
  have hn0 : (target.length : ℚ) ≠ 0 :=
    Nat.cast_ne_zero.2 (List.length_pos.2 hne).ne'
  refine ⟨?_, ?_, ?_⟩
  · simp only [accuracy, List.map_cons, List.map_nil, List.cons.injEq, and_true]
    rw [mul_div_assoc]
  · intro hargmax
    have hall : (output.zip target).filter (fun p => inTopK 1 p.1 p.2) =
        output.zip target := by
      rw [List.filter_eq_self]
      intro p hp
      obtain ⟨h1, h2⟩ := hargmax p hp
      exact inTopK_one_of_argmax p.1 p.2 h1 h2
    simp only [accuracy, List.map_cons, List.map_nil, hall, List.cons.injEq, and_true]
    rw [List.length_zip, hlen, Nat.min_self, mul_comm, div_mul_cancel₀ _ hn0]
  · intro hnone
    have hnil : (output.zip target).filter (fun p => inTopK k p.1 p.2) = [] := by
      rw [List.filter_eq_nil_iff]
      intro p hp
      simp [hnone p hp]
    simp [accuracy, hnil]

theorem accuracy_spec_witness :
    accuracy [[1, 5], [7, 2]] [1, 0] [1] = [100] :=
  (accuracy_spec [[1, 5], [7, 2]] [1, 0] 1 (by rfl) (by simp)).2.1 (by
    intro p hp
    simp only [List.zip_cons_cons, List.zip_nil_right, List.mem_cons,
      List.not_mem_nil, or_false] at hp
    rcases hp with rfl | rfl <;>
      · refine ⟨by norm_num, ?_⟩
        intro j hj hjne
        norm_num at hj
        interval_cases j <;> simp_all <;> norm_num)

/-! ## Checkpointing and the best-accuracy scalar
(train.py lines 163-176 and 263-274)

The serialized record, the filesystem operations `save_checkpoint` performs,
and the per-epoch tail of the training loop (validate, compare, save). -/

/-- The dict passed to `torch.save` (train.py lines 170-174): completed-epoch
index, model parameter state (modelled as a list of rationals), and the best
accuracy so far. -/
structure Checkpoint where
  epoch : ℕ
  state_dict : List ℚ
  best_prec1 : ℚ
  deriving DecidableEq, Repr

/-- A filesystem write performed by `save_checkpoint`. -/
inductive FsOp where
  | save : String → Checkpoint → FsOp
  | copyfile : String → String → FsOp
  deriving DecidableEq, Repr

/-- `"runs/%s/" % name + "checkpoint.pth.tar"` (train.py lines 265-270). -/
def checkpointPath (name : String) : String :=
  "runs/" ++ name ++ "/checkpoint.pth.tar"

/-- `"runs/%s/" % name + "model_best.pth.tar"` (train.py line 274). -/
def bestPath (name : String) : String :=
  "runs/" ++ name ++ "/model_best.pth.tar"

/-- `save_checkpoint` (train.py lines 263-274): always saves the record;
additionally copies it to the best filename when `is_best`. -/
def save_checkpoint (name : String) (state : Checkpoint) (is_best : Bool) :
    List FsOp :=
  FsOp.save (checkpointPath name) state ::
    (if is_best then [FsOp.copyfile (checkpointPath name) (bestPath name)] else [])

/-- The tail of one epoch-loop iteration (train.py lines 167-174):
`is_best = prec1 > best_prec1`, `best_prec1 = max(prec1, best_prec1)`,
then `save_checkpoint` with the updated record. -/
def epochStep (name : String) (sd : List ℚ) (best : ℚ) (epoch : ℕ) (prec1 : ℚ) :
    ℚ × List FsOp :=
  let is_best : Bool := decide (best < prec1)
  let best2 := max prec1 best
  (best2,
    save_checkpoint name { epoch := epoch + 1, state_dict := sd, best_prec1 := best2 } is_best)

/-- The epoch loop (train.py lines 163-176) abstracted over the validation
accuracy each epoch produces; returns the final `best_prec1` and each
epoch's filesystem writes. -/
def runEpochs (name : String) (sd : List ℚ) :
    ℚ → ℕ → List ℚ → ℚ × List (List FsOp)
  | best, _, [] => (best, [])
  | best, epoch, p :: ps =>
    let st := epochStep name sd best epoch p
    let rest := runEpochs name sd st.1 (epoch + 1) ps
    (rest.1, st.2 :: rest.2)

/-- The value of `best_prec1` after folding a run of validation accuracies
into an initial value via `best_prec1 = max(prec1, best_prec1)`. -/
def bestAfter (best : ℚ) : List ℚ → ℚ
  | [] => best
  | p :: ps => bestAfter (max p best) ps

/-- Whether a list of filesystem writes overwrites the best-model file. -/
def writesBest (name : String) (ops : List FsOp) : Bool :=
  ops.any fun op =>
    match op with
    | FsOp.copyfile _ dst => dst == bestPath name
    | _ => false

/-- Whether a list of filesystem writes persists the regular checkpoint. -/
def writesCheckpoint (name : String) (ops : List FsOp) : Bool :=
  ops.any fun op =>
    match op with
    | FsOp.save path _ => path == checkpointPath name
    | _ => false

theorem bestAfter_mono_base (l : List ℚ) :
    ∀ b1 b2 : ℚ, b1 ≤ b2 → bestAfter b1 l ≤ bestAfter b2 l := by
  induction l with
  | nil => intro b1 b2 h; exact h
  | cons p ps ih =>
    intro b1 b2 h
    exact ih _ _ (max_le_max le_rfl h)

theorem le_bestAfter (l : List ℚ) : ∀ b : ℚ, b ≤ bestAfter b l := by
  induction l with
  | nil => intro b; exact le_rfl
  | cons p ps ih =>
    intro b
    exact le_trans (le_max_right p b) (ih (max p b))

theorem bestAfter_append (l1 l2 : List ℚ) :
    ∀ b : ℚ, bestAfter b (l1 ++ l2) = bestAfter (bestAfter b l1) l2 := by
  induction l1 with
  | nil => intro b; rfl
  | cons p ps ih => intro b; exact ih _

theorem mem_le_bestAfter (l : List ℚ) :
    ∀ b : ℚ, ∀ p ∈ l, p ≤ bestAfter b l := by
  induction l with
  | nil => intro b p hp; exact absurd hp (List.not_mem_nil p)
  | cons q qs ih =>
    intro b p hp
    rcases List.mem_cons.1 hp with rfl | hp2
    · exact le_trans (le_max_left p b) (le_bestAfter qs _)
    · exact ih _ p hp2

theorem bestAfter_eq_or_mem (l : List ℚ) :
    ∀ b : ℚ, bestAfter b l = b ∨ bestAfter b l ∈ l := by
  induction l with
  | nil => intro b; exact Or.inl rfl
  | cons p ps ih =>
    intro b
    rcases ih (max p b) with h | h
    · rcases max_cases p b with ⟨hm, -⟩ | ⟨hm, -⟩
      · exact Or.inr (by rw [bestAfter, h, hm]; exact List.mem_cons_self p ps)
      · exact Or.inl (by rw [bestAfter, h, hm])
    · exact Or.inr (List.mem_cons_of_mem p h)

theorem runEpochs_fst (name : String) (sd : List ℚ) (precs : List ℚ) :
    ∀ best : ℚ, ∀ epoch : ℕ,
      (runEpochs name sd best epoch precs).1 = bestAfter best precs := by
  induction precs with
  | nil => intro best epoch; rfl
  | cons p ps ih =>
    intro best epoch
    simp only [runEpochs, epochStep, bestAfter]
    exact ih _ _

/-- C3: in every epoch of the training loop the regular checkpoint record is
persisted unconditionally, and the best-model file is overwritten iff that
epoch's validation accuracy strictly exceeds the best accuracy recorded from
all prior epochs (the initial/restored value folded with earlier epochs'
accuracies); ties do not trigger the overwrite. -/
theorem best_file_strict_improvement (name : String) (sd : List ℚ) (best : ℚ)
    (start : ℕ) (precs : List ℚ) :
    (runEpochs name sd best start precs).2.length = precs.length ∧
    ∀ i, i < precs.length →
      writesCheckpoint name ((runEpochs name sd best start precs).2.getD i []) = true ∧
      (writesBest name ((runEpochs name sd best start precs).2.getD i []) = true ↔
        bestAfter best (precs.take i) < precs.getD i 0) := by
  induction precs generalizing best start with
  | nil => exact ⟨rfl, fun i hi => absurd hi (by simp)⟩
  | cons p ps ih =>
    obtain ⟨ihlen, ihall⟩ := ih (max p best) (start + 1)
    constructor
    · simp only [runEpochs, List.length_cons, epochStep]
      rw [ihlen]
    · intro i hi
      cases i with
      | zero =>
        by_cases hb : best < p <;>
          simp [runEpochs, epochStep, save_checkpoint, writesCheckpoint,
            writesBest, hb, bestAfter, List.any_cons]
      | succ i =>
        have hi2 : i < ps.length := Nat.lt_of_succ_lt_succ hi
        obtain ⟨hckpt, hbst⟩ := ihall i hi2
        refine ⟨?_, ?_⟩
        · simpa [runEpochs] using hckpt
        · simpa [runEpochs, bestAfter] using hbst

theorem best_file_strict_improvement_witness :
    writesCheckpoint "exp" ((runEpochs "exp" [] 0 0 [(50 : ℚ), 50]).2.getD 1 []) = true ∧
    (writesBest "exp" ((runEpochs "exp" [] 0 0 [(50 : ℚ), 50]).2.getD 1 []) = true ↔
      bestAfter 0 (List.take 1 [(50 : ℚ), 50]) < List.getD [(50 : ℚ), 50] 1 0) :=
  (best_file_strict_improvement "exp" [] 0 0 [50, 50]).2 1 (by norm_num)

/-- C4: across the run `best_prec1` is monotonically non-decreasing, and
after each epoch it is the maximum of the starting value (0 or the value
restored from a resume checkpoint) and all validation accuracies of the
completed epochs. -/
theorem best_prec1_monotone_max (name : String) (sd : List ℚ) (best : ℚ)
    (start : ℕ) (precs : List ℚ) :
    (runEpochs name sd best start precs).1 = bestAfter best precs ∧
    (∀ i j, i ≤ j →
      bestAfter best (precs.take i) ≤ bestAfter best (precs.take j)) ∧
    best ≤ bestAfter best precs ∧
    (∀ p ∈ precs, p ≤ bestAfter best precs) ∧
    (bestAfter best precs = best ∨ bestAfter best precs ∈ precs) := by
  refine ⟨runEpochs_fst name sd precs best start, ?_, le_bestAfter precs best,
    mem_le_bestAfter precs best, bestAfter_eq_or_mem precs best⟩
  intro i j hij
  have htt : precs.take i = (precs.take j).take i := by
    rw [List.take_take, min_eq_left hij]
  have hsplit : precs.take j = precs.take i ++ (precs.take j).drop i := by
    rw [htt]
    exact (List.take_append_drop i (precs.take j)).symm
  calc bestAfter best (precs.take i)
      ≤ bestAfter (bestAfter best (precs.take i)) ((precs.take j).drop i) :=
        le_bestAfter _ _
    _ = bestAfter best (precs.take j) := by rw [← bestAfter_append, ← hsplit]

theorem best_prec1_monotone_max_witness :
    bestAfter 0 (List.take 1 [(50 : ℚ), 60]) ≤ bestAfter 0 (List.take 2 [(50 : ℚ), 60]) :=
  (best_prec1_monotone_max "exp" [] 0 0 [50, 60]).2.1 1 2 (by norm_num)

/-! ## Checkpoint files on disk and the resume path
(train.py lines 146-155 and 263-274)

The disk is a path-to-record association list; `torch.save` prepends,
`torch.load` looks up, `os.path.isfile` tests presence.  `shutil.copyfile`
reads the source record and writes it at the destination (raising, hence
`none`, if the source is missing). -/

/-- The on-disk store of serialized checkpoint records. -/
def FileStore := List (String × Checkpoint)

/-- `torch.load(path)`: the record at `path`, if present. -/
def torch_load (fs : FileStore) (path : String) : Option Checkpoint :=
  (fs.find? fun e => e.1 == path).map Prod.snd

/-- `torch.save(state, path)`: (over)writes the record at `path`. -/
def torch_save (fs : FileStore) (path : String) (c : Checkpoint) : FileStore :=
  (path, c) :: fs

/-- `os.path.isfile(path)`. -/
def os_path_isfile (fs : FileStore) (path : String) : Bool :=
  (torch_load fs path).isSome

/-- Effect of `save_checkpoint`'s writes on the store. -/
def applyOps (fs : FileStore) : List FsOp → Option FileStore
  | [] => some fs
  | FsOp.save path c :: ops => applyOps (torch_save fs path c) ops
  | FsOp.copyfile src dst :: ops =>
    match torch_load fs src with
    | none => none
    | some c => applyOps (torch_save fs dst c) ops

/-- Result of the resume block (train.py lines 146-155): the possibly
overwritten starting epoch, best accuracy and parameter state, plus the
lines it prints. -/
structure ResumeOutcome where
  start_epoch : ℕ
  best_prec1 : ℚ
  state_dict : List ℚ
  logs : List String
  deriving DecidableEq, Repr

/-- The resume block (train.py lines 146-155): when `args.resume` is a
nonempty path, load the record if the file exists, overwriting the starting
epoch, best accuracy and parameter state; otherwise print that no checkpoint
was found and keep the freshly constructed state. -/
def resumeBlock (fs : FileStore) (resume : String) (start_epoch : ℕ)
    (best_prec1 : ℚ) (sd : List ℚ) : ResumeOutcome :=
  if resume ≠ "" then
    if os_path_isfile fs resume then
      match torch_load fs resume with
      | some c =>
        { start_epoch := c.epoch, best_prec1 := c.best_prec1,
          state_dict := c.state_dict,
          logs := ["=> loading checkpoint " ++ resume, "=> loaded checkpoint"] }
      | none =>
        { start_epoch := start_epoch, best_prec1 := best_prec1,
          state_dict := sd, logs := [] }
    else
      { start_epoch := start_epoch, best_prec1 := best_prec1, state_dict := sd,
        logs := ["=> no checkpoint found at " ++ resume] }
  else
    { start_epoch := start_epoch, best_prec1 := best_prec1, state_dict := sd,
      logs := [] }

/-- `range(args.start_epoch, args.epochs)` of the main loop (line 163). -/
def epochRange (start_epoch epochs : ℕ) : List ℕ :=
  List.range' start_epoch (epochs - start_epoch)

theorem checkpointPath_ne_empty (name : String) : checkpointPath name ≠ "" := by
  intro h
  have hd : (checkpointPath name).data = ("" : String).data := by rw [h]
  simp only [checkpointPath, String.data_append] at hd
  exact absurd hd (by simp [String.data])

theorem bestPath_ne_checkpointPath (name : String) :
    bestPath name ≠ checkpointPath name := by
  intro h
  have hd : (bestPath name).data = (checkpointPath name).data := by rw [h]
  simp only [bestPath, checkpointPath, String.data_append, List.append_assoc] at hd
  have h1 := List.append_cancel_left hd
  have h2 := List.append_cancel_left h1
  exact absurd h2 (by decide)

/-- C6: saving a checkpoint record written at the end of epoch `e` (with
`epoch` field `e + 1`) and loading it back through the resume path restores
the identical epoch index, best accuracy and parameter state, so the
restarted loop `range(start_epoch, epochs)` continues at epoch `e + 1`. -/
theorem checkpoint_resume_roundtrip (fs fs2 : FileStore) (name : String)
    (e epochs s0 : ℕ) (sd d0 : List ℚ) (best b0 : ℚ) (is_best : Bool)
    (happly : applyOps fs
      (save_checkpoint name
        { epoch := e + 1, state_dict := sd, best_prec1 := best } is_best) = some fs2) :
    (resumeBlock fs2 (checkpointPath name) s0 b0 d0).start_epoch = e + 1 ∧
    (resumeBlock fs2 (checkpointPath name) s0 b0 d0).best_prec1 = best ∧
    (resumeBlock fs2 (checkpointPath name) s0 b0 d0).state_dict = sd ∧
    (e + 1 < epochs →
      (epochRange (resumeBlock fs2 (checkpointPath name) s0 b0 d0).start_epoch
        epochs).head? = some (e + 1)) := by
  have hload : torch_load fs2 (checkpointPath name) =
      some { epoch := e + 1, state_dict := sd, best_prec1 := best } := by
    cases is_best with
    | false =>
      simp only [save_checkpoint, Bool.false_eq_true, if_false, applyOps,
        Option.some.injEq] at happly
      subst happly
      simp [torch_load, torch_save, List.find?]
    | true =>
      simp only [save_checkpoint, if_true, applyOps, torch_save, torch_load,
        List.find?, beq_self_eq_true, Option.map_some', Option.some.injEq] at happly
      subst happly
      have hne : ((bestPath name == checkpointPath name) : Bool) = false :=
        beq_eq_false_iff_ne.2 (bestPath_ne_checkpointPath name)
      simp [torch_load, List.find?, hne]
  have hres : resumeBlock fs2 (checkpointPath name) s0 b0 d0 =
      { start_epoch := e + 1, best_prec1 := best, state_dict := sd,
        logs := ["=> loading checkpoint " ++ checkpointPath name,
          "=> loaded checkpoint"] } := by
    simp [resumeBlock, checkpointPath_ne_empty name, os_path_isfile, hload]
  rw [hres]
  refine ⟨rfl, rfl, rfl, ?_⟩
  intro hlt
  obtain ⟨k, hk⟩ : ∃ k, epochs - (e + 1) = k + 1 := ⟨epochs - (e + 1) - 1, by omega⟩
  simp only [epochRange, hk, List.range']
  rfl

theorem checkpoint_resume_roundtrip_witness :
    (resumeBlock (torch_save ([] : FileStore) (checkpointPath "exp")
        { epoch := 4, state_dict := [1], best_prec1 := 7 })
      (checkpointPath "exp") 0 0 []).start_epoch = 3 + 1 ∧
    (resumeBlock (torch_save ([] : FileStore) (checkpointPath "exp")
        { epoch := 4, state_dict := [1], best_prec1 := 7 })
      (checkpointPath "exp") 0 0 []).best_prec1 = 7 ∧
    (resumeBlock (torch_save ([] : FileStore) (checkpointPath "exp")
        { epoch := 4, state_dict := [1], best_prec1 := 7 })
      (checkpointPath "exp") 0 0 []).state_dict = [1] ∧
    (3 + 1 < 10 →
      (epochRange (resumeBlock (torch_save ([] : FileStore) (checkpointPath "exp")
          { epoch := 4, state_dict := [1], best_prec1 := 7 })
        (checkpointPath "exp") 0 0 []).start_epoch 10).head? = some (3 + 1)) :=
  checkpoint_resume_roundtrip [] _ "exp" 3 10 0 [1] [] 7 0 false
    (by simp [save_checkpoint, applyOps])

/-- C7: when a resume path is given but no file exists at it, the run does
not fail: the starting epoch, best accuracy and parameter state are kept and
the block only logs that no checkpoint was found. -/
theorem resume_missing_file (fs : FileStore) (resume : String) (s0 : ℕ)
    (b0 : ℚ) (d0 : List ℚ) (hres : resume ≠ "")
    (hmiss : torch_load fs resume = none) :
    resumeBlock fs resume s0 b0 d0 =
      { start_epoch := s0, best_prec1 := b0, state_dict := d0,
        logs := ["=> no checkpoint found at " ++ resume] } := by
  simp [resumeBlock, hres, os_path_isfile, hmiss]

theorem resume_missing_file_witness :
    resumeBlock ([] : FileStore) "ckpt.pth.tar" 0 0 [] =
      { start_epoch := 0, best_prec1 := 0, state_dict := [],
        logs := ["=> no checkpoint found at " ++ "ckpt.pth.tar"] } :=
  resume_missing_file [] "ckpt.pth.tar" 0 0 [] (by simp) (by rfl)

/-! ## Dataset-name assertion (train.py line 126) -/

/-- `assert(args.dataset == "cifar10" or args.dataset == "cifar100")`
(train.py line 126): an `AssertionError` terminates the process for any
other dataset name. -/
def datasetCheck (dataset : String) : Except String Unit :=
  if dataset = "cifar10" ∨ dataset = "cifar100" then Except.ok ()
  else Except.error "AssertionError"

/-- C8: the run terminates via a failed assertion iff the configured dataset
name is neither "cifar10" nor "cifar100"; for those two names execution
continues. -/
theorem dataset_assert_spec (dataset : String) :
    (datasetCheck dataset = Except.error "AssertionError" ↔
      dataset ≠ "cifar10" ∧ dataset ≠ "cifar100") ∧
    (dataset = "cifar10" ∨ dataset = "cifar100" →
      datasetCheck dataset = Except.ok ()) := by
  constructor
  · constructor
    · intro h
      by_cases hd : dataset = "cifar10" ∨ dataset = "cifar100"
      · simp [datasetCheck, hd] at h
      · push_neg at hd
        exact hd
    · intro h
      simp [datasetCheck, h.1, h.2]
  · intro h
    simp [datasetCheck, h]

theorem dataset_assert_spec_witness :
    datasetCheck "imagenet" = Except.error "AssertionError" :=
  (dataset_assert_spec "imagenet").1.2 (by simp)

/-! ## Training and validation passes (train.py lines 179-260)

The network, the loss and the SGD update live in the deep-learning library,
so the embedding takes them as parameters: `forward` maps parameters and a
batch's inputs to per-sample class scores, `criterion` produces the loss,
`gradFn` the gradient that `loss.backward()` writes, `sgdStep` the optimizer
update.  A training batch (lines 188-203) updates the meters, then zeroes
the gradients, backpropagates and steps the optimizer; a validation batch
(lines 229-241) computes the same forward/loss/accuracy values and meter
updates under `torch.no_grad()`, touching neither parameters nor
gradients. -/

/-- Mutable torch state: the model parameters and their gradient buffers. -/
structure TorchState where
  params : List ℚ
  grads : List ℚ
  deriving DecidableEq, Repr

/-- The two per-epoch statistics meters both passes maintain. -/
structure Meters where
  losses : AverageMeter
  top1 : AverageMeter
  deriving DecidableEq, Repr

/-- One batch of inputs (per-sample feature rows) and integer labels. -/
structure Batch where
  input : List (List ℚ)
  target : List ℕ
  deriving DecidableEq, Repr

/-- The meter updates both passes perform (lines 198-199 and 240-241):
`losses.update(loss, input.size(0))` then `top1.update(prec1, input.size(0))`. -/
def metersUpdate (ms : Meters) (loss prec1 n : ℚ) : Option Meters :=
  match ms.losses.update loss n, ms.top1.update prec1 n with
  | some l2, some t2 => some { losses := l2, top1 := t2 }
  | _, _ => none

/-- One training batch (train.py lines 188-203): forward, loss, top-1
accuracy, meter updates, then `zero_grad`, `backward`, `optimizer.step()`. -/
def trainStep (forward : List ℚ → List (List ℚ) → List (List ℚ))
    (criterion : List (List ℚ) → List ℕ → ℚ)
    (gradFn : List ℚ → Batch → List ℚ)
    (sgdStep : List ℚ → List ℚ → List ℚ)
    (st : TorchState) (ms : Meters) (b : Batch) :
    Option (TorchState × Meters) :=
  let output := forward st.params b.input
  let loss := criterion output b.target
  let prec1 := (accuracy output b.target [1]).getD 0 0
  match metersUpdate ms loss prec1 (b.input.length : ℚ) with
  | none => none
  | some ms2 =>
    let grads := gradFn st.params b
    some ({ params := sgdStep st.params grads, grads := grads }, ms2)

/-- One validation batch (train.py lines 229-241): the same forward, loss,
accuracy and meter updates, under `torch.no_grad()`; no `zero_grad`, no
`backward`, no `optimizer.step()`. -/
def valStep (forward : List ℚ → List (List ℚ) → List (List ℚ))
    (criterion : List (List ℚ) → List ℕ → ℚ)
    (st : TorchState) (ms : Meters) (b : Batch) : Option Meters :=
  let output := forward st.params b.input
  let loss := criterion output b.target
  let prec1 := (accuracy output b.target [1]).getD 0 0
  metersUpdate ms loss prec1 (b.input.length : ℚ)

/-- The batch loop of `validate` (train.py lines 229-241), threading the
torch state it never writes. -/
def validateRun (forward : List ℚ → List (List ℚ) → List (List ℚ))
    (criterion : List (List ℚ) → List ℕ → ℚ) :
    TorchState → Meters → List Batch → Option (TorchState × Meters)
  | st, ms, [] => some (st, ms)
  | st, ms, b :: bs =>
    match valStep forward criterion st ms b with
    | none => none
    | some ms2 => validateRun forward criterion st ms2 bs

theorem validateRun_preserves_state
    (forward : List ℚ → List (List ℚ) → List (List ℚ))
    (criterion : List (List ℚ) → List ℕ → ℚ) (batches : List Batch) :
    ∀ (st st2 : TorchState) (ms ms2 : Meters),
      validateRun forward criterion st ms batches = some (st2, ms2) →
        st2 = st := by
  induction batches with
  | nil =>
    intro st st2 ms ms2 h
    simp only [validateRun, Option.some.injEq, Prod.mk.injEq] at h
    exact h.1.symm
  | cons b bs ih =>
    intro st st2 ms ms2 h
    simp only [validateRun] at h
    rcases hv : valStep forward criterion st ms b with _ | m2
    · rw [hv] at h
      exact absurd h (by simp)
    · rw [hv] at h
      exact ih st st2 m2 ms2 h

/-- C9: the validation pass leaves the model parameters (and gradient
buffers) unchanged and performs no optimizer step, while each validation
batch accumulates loss and top-1 accuracy into the running statistics by
exactly the same meter transition as the corresponding training batch. -/
theorem validate_frame (forward : List ℚ → List (List ℚ) → List (List ℚ))
    (criterion : List (List ℚ) → List ℕ → ℚ)
    (gradFn : List ℚ → Batch → List ℚ) (sgdStep : List ℚ → List ℚ → List ℚ)
    (st : TorchState) (ms : Meters) (batches : List Batch) :
    (∀ st2 ms2, validateRun forward criterion st ms batches = some (st2, ms2) →
      st2.params = st.params ∧ st2.grads = st.grads) ∧
    (∀ b, valStep forward criterion st ms b =
      Option.map Prod.snd (trainStep forward criterion gradFn sgdStep st ms b)) := by
  constructor
  · intro st2 ms2 h
    rw [validateRun_preserves_state forward criterion batches st st2 ms ms2 h]
    exact ⟨rfl, rfl⟩
  · intro b
    simp only [valStep, trainStep]
    rcases hm : metersUpdate ms (criterion (forward st.params b.input) b.target)
        ((accuracy (forward st.params b.input) b.target [1]).getD 0 0)
        (b.input.length : ℚ) with _ | m2 <;> simp [hm]

theorem validate_frame_witness :
    ({ params := [(1 : ℚ)], grads := [0] } : TorchState).params =
        ({ params := [(1 : ℚ)], grads := [0] } : TorchState).params ∧
      ({ params := [(1 : ℚ)], grads := [0] } : TorchState).grads =
        ({ params := [(1 : ℚ)], grads := [0] } : TorchState).grads :=
  (validate_frame (fun p _ => [p]) (fun _ _ => 2) (fun p _ => p) (fun p _ => p)
      { params := [1], grads := [0] }
      { losses := AverageMeter.reset, top1 := AverageMeter.reset }
      [{ input := [[3]], target := [0] }]).1
    { params := [1], grads := [0] }
    { losses := { val := 2, avg := 2, sum := 2, count := 1 },
      top1 := { val := 100, avg := 100, sum := 100, count := 1 } }
    (by norm_num [validateRun, valStep, metersUpdate, AverageMeter.update,
      AverageMeter.reset, accuracy, inTopK, ranksBefore])
